import Mathlib

/-!
Shallow embedding of the block codec / oblivious-storage utility layer of
PartitionORAM (`src/base/oram_utils.cc` and the square-root ORAM storage
header), together with proofs about the properties stated in the design
document.

Machine bytes are modelled as `Nat` values reduced `% 256` where the code
stores them into `uint8_t`; byte strings are `List Nat`.  Randomness drawn
from the cryptographic provider is modelled by an explicit byte stream
`rng : Nat → Nat` together with a running position, and the provider's
`RandomShuffle` by an arbitrary permutation parameter.  Fatal aborts
(`PANIC_IF`, `CheckStatus`, `abort()`) are modelled with `Option`: `none`
is the fatal branch.
-/

namespace PartitionORAM

/-- Modelled from the spec: the header `oram_defs.h` defining
`oram_block_t` is not under `src/`; the spec gives the wire layout as
`block_id` (unsigned integer), `type` (1-byte enum), `iv` (12 bytes),
`mac_tag` (16 bytes) followed by `data` (`DEFAULT_ORAM_DATA_SIZE` bytes).
The `block_id` width is fixed at 4 bytes (`uint32_t`), matching the
`uint32_t` positions used by the storage layer. -/
def BLOCK_ID_SIZE : Nat := 4

/-- Modelled from the spec: `BlockType` enum value for `kNormal`
(first enumerator of the 1-byte enum `Normal | Dummy`). -/
def kNormal : Nat := 0

/-- Modelled from the spec: `BlockType` enum value for `kDummy`. -/
def kDummy : Nat := 1

/-- Serialized block size: header (`block_id` ++ `type` ++ `iv` ++
`mac_tag`) followed by the payload of `dsz = DEFAULT_ORAM_DATA_SIZE`
bytes.  `DEFAULT_ORAM_DATA_SIZE` is a compile-time constant of the
missing `oram_defs.h`, so it is kept as a parameter `dsz` throughout. -/
def ORAM_BLOCK_SIZE (dsz : Nat) : Nat := BLOCK_ID_SIZE + 1 + 12 + 16 + dsz

/-- `partition_oram::oram_block_t`: header fields inlined.  The C++
struct stores fixed-width unsigned fields; well-formedness of the list
lengths and byte ranges is captured by `WFBlock`. -/
structure oram_block_t where
  block_id : Nat
  type : Nat
  iv : List Nat
  mac_tag : List Nat
  data : List Nat
  deriving DecidableEq, Inhabited

/-- The image of genuine C++ `oram_block_t` structs: field widths and
byte ranges enforced by the struct's fixed-size arrays. -/
def WFBlock (dsz : Nat) (b : oram_block_t) : Prop :=
  b.block_id < 2 ^ 32 ∧ b.type < 256 ∧
  b.iv.length = 12 ∧ (∀ x ∈ b.iv, x < 256) ∧
  b.mac_tag.length = 16 ∧ (∀ x ∈ b.mac_tag, x < 256) ∧
  b.data.length = dsz ∧ (∀ x ∈ b.data, x < 256)

instance (dsz : Nat) (b : oram_block_t) : Decidable (WFBlock dsz b) := by
  unfold WFBlock; infer_instance

/-- Little-endian byte decomposition of an unsigned integer, `w` bytes. -/
def natToBytesLE (w n : Nat) : List Nat :=
  (List.range w).map fun i => n / 256 ^ i % 256

/-- Little-endian recomposition of a byte string into an unsigned
integer (each byte reduced `% 256`, as `memcpy` into a `uint32_t`). -/
def bytesToNatLE (l : List Nat) : Nat :=
  l.foldr (fun b acc => b % 256 + acc * 256) 0

/-- `memcpy(dst, src, src.length)` into a buffer holding `dst`:
the first `src.length` bytes are overwritten, the tail kept. -/
def memcpyList (dst src : List Nat) : List Nat :=
  src ++ dst.drop src.length

/-- Truncate/zero-extend a byte string to exactly `n` bytes, reducing
entries `% 256` (a fixed-size `uint8_t[n]` field holding `l`). -/
def fixLen (n : Nat) (l : List Nat) : List Nat :=
  (l.map (· % 256) ++ List.replicate n 0).take n

/-- `oram_crypto::Cryptor::RandomBytes(buf, n)` drawing from the
provider's byte stream `rng` at running position `pos`. -/
def RandomBytes (rng : Nat → Nat) (pos n : Nat) : List Nat :=
  (List.range n).map fun i => rng (pos + i) % 256

/-- Reinterpret `ORAM_BLOCK_SIZE` raw bytes as a block, per the wire
layout (the `memcpy` in `ConvertToBlock`, and the reinterpretation of a
stack `oram_block_t` filled by `RandomBytes` in `PadStash`). -/
def blockOfBytes (s : List Nat) : oram_block_t :=
  { block_id := bytesToNatLE (s.take BLOCK_ID_SIZE)
    type := s.getD BLOCK_ID_SIZE 0
    iv := (s.drop (BLOCK_ID_SIZE + 1)).take 12
    mac_tag := (s.drop (BLOCK_ID_SIZE + 1 + 12)).take 16
    data := s.drop (BLOCK_ID_SIZE + 1 + 12 + 16) }

/-- `oram_utils::ConvertToBlock`: `PANIC_IF(data.size() != ORAM_BLOCK_SIZE)`
then `memcpy` the bytes over the block.  `none` is the fatal branch. -/
def ConvertToBlock (dsz : Nat) (data : List Nat) : Option oram_block_t :=
  if data.length ≠ ORAM_BLOCK_SIZE dsz then none
  else some (blockOfBytes data)

/-- `oram_utils::ConvertToString`: resize to `ORAM_BLOCK_SIZE` and
`memcpy` the block's bytes out, in field order. -/
def ConvertToString (dsz : Nat) (b : oram_block_t) : List Nat :=
  natToBytesLE BLOCK_ID_SIZE b.block_id ++ [b.type % 256] ++
    fixLen 12 b.iv ++ fixLen 16 b.mac_tag ++ fixLen dsz b.data

/-- `oram_utils::SerializeToStringVector`: one string per block. -/
def SerializeToStringVector (dsz : Nat) (bucket : List oram_block_t) :
    List (List Nat) :=
  bucket.map (ConvertToString dsz)

/-- `oram_utils::DeserializeFromStringVector`: `ConvertToBlock` on each
string in order; any fatal conversion aborts the whole call (`none`). -/
def DeserializeFromStringVector (dsz : Nat) :
    List (List Nat) → Option (List oram_block_t)
  | [] => some []
  | s :: rest => do
    let b ← ConvertToBlock dsz s
    let bs ← DeserializeFromStringVector dsz rest
    pure (b :: bs)

/-- The injected cryptographic provider (`oram_crypto::Cryptor`),
consumed, not reimplemented: a random byte stream and an AEAD pair.
`encrypt data iv` returns `ciphertext ++ mac_tag` (tag = trailing 16
bytes); `decrypt enc iv` returns the recovered plaintext. -/
structure Cryptor where
  rng : Nat → Nat
  encrypt : List Nat → List Nat → List Nat
  decrypt : List Nat → List Nat → List Nat

/-- `oram_utils::EncryptBlock`: no-op unless `type == kNormal`;
otherwise draw a fresh 12-byte iv from the provider at stream position
`pos`, AEAD-encrypt the payload, store the trailing 16 bytes of the
output as `mac_tag` and `memcpy` the remaining `enc.size() - 16` bytes
over `data`.  Returns the block and the advanced stream position. -/
def EncryptBlock (c : Cryptor) (pos : Nat) (b : oram_block_t) :
    oram_block_t × Nat :=
  if b.type ≠ kNormal then (b, pos)
  else
    let iv := RandomBytes c.rng pos 12
    let enc := c.encrypt b.data iv
    ({ b with
        iv := iv
        mac_tag := enc.drop (enc.length - 16)
        data := memcpyList b.data (enc.take (enc.length - 16)) }, pos + 12)

/-- `oram_utils::DecryptBlock`: no-op unless `type == kNormal`;
otherwise rebuild the AEAD input as `data ++ mac_tag`, decrypt with the
stored iv and `memcpy` the `dec.size()` recovered bytes over `data`. -/
def DecryptBlock (c : Cryptor) (b : oram_block_t) : oram_block_t :=
  if b.type ≠ kNormal then b
  else
    let dec := c.decrypt (b.data ++ b.mac_tag) b.iv
    { b with data := memcpyList b.data dec }

/-- `oram_utils::PadStash`: while the stash holds fewer than
`bucket_size` blocks, append a stack block whose entire
`ORAM_BLOCK_SIZE` bytes are drawn from the provider's random stream
(`RandomBytes((uint8_t*)&dummy, ORAM_BLOCK_SIZE)`); the `j`-th appended
block draws at stream position `pos + j * ORAM_BLOCK_SIZE`. -/
def PadStash (dsz : Nat) (rng : Nat → Nat) (pos : Nat)
    (stash : List oram_block_t) (bucket_size : Nat) : List oram_block_t :=
  if stash.length < bucket_size then
    stash ++ (List.range (bucket_size - stash.length)).map fun j =>
      blockOfBytes
        (RandomBytes rng (pos + j * ORAM_BLOCK_SIZE dsz) (ORAM_BLOCK_SIZE dsz))
  else stash

/-- `oram_utils::SampleRandomBucket`: `size >>= 1`; build `tree_size`
blocks with `block_id = i + initial_offset` (the `size_t` sum narrowed
into the 4-byte unsigned `block_id` field, so reduced `% 2^32`), type
`kNormal` for `i < size/2` else `kDummy`, `data[0] = i + initial_offset`
(narrowed into a `uint8_t`, so `% 256`) and `data[1..]` drawn from the
provider; then shuffle.  The provider's `RandomShuffle` is the parameter
`shuffle` (an arbitrary permutation); the uninitialized header fields
`iv`/`mac_tag` of the stack block are the arbitrary junk parameters
`junkIv`/`junkMac`. -/
def SampleRandomBucket (dsz : Nat) (rng : Nat → Nat) (pos : Nat)
    (junkIv junkMac : Nat → List Nat)
    (shuffle : List oram_block_t → List oram_block_t)
    (size tree_size initial_offset : Nat) : List oram_block_t :=
  let size2 := size >>> 1
  shuffle ((List.range tree_size).map fun i =>
    { block_id := (i + initial_offset) % 2 ^ 32
      type := if i < size2 then kNormal else kDummy
      iv := junkIv i
      mac_tag := junkMac i
      data := (i + initial_offset) % 256 ::
        RandomBytes rng (pos + i * (dsz - 1)) (dsz - 1) })

/-- `oram_impl::SqrtOramServerStorage` (with the `BaseOramServerStorage`
fields it inherits that the claims use). -/
structure SqrtOramServerStorage where
  id : Nat
  capacity : Nat
  block_size_ : Nat
  squared_m_ : Nat

/-- `SqrtOramServerStorage::InRange(pos) { return pos < block_size_; }` -/
def SqrtOramServerStorage.InRange (st : SqrtOramServerStorage)
    (pos : Nat) : Bool :=
  pos < st.block_size_

/-- Modelled from the spec: the LZ4 compression library is an external
collaborator (`<lz4.h>`), consumed through the bounded-output
compress/decompress contract of the spec.  `compressImpl` returns the
compressed bytes (`LZ4_compress_default` given a `LZ4_compressBound`
sized buffer); `decompressImpl input capacity` returns
`LZ4_decompress_safe`'s `int` result together with the bytes written:
the original data and its length when `capacity` suffices, a negative
result on failure (in particular whenever the decompressed size exceeds
`capacity`). -/
structure CompressionLib where
  compressImpl : List Nat → List Nat
  decompressImpl : List Nat → Nat → Int × List Nat
  decompress_of_le : ∀ d cap, d.length ≤ cap →
    decompressImpl (compressImpl d) cap = ((d.length : Int), d)
  decompress_of_lt : ∀ d cap, cap < d.length →
    (decompressImpl (compressImpl d) cap).1 < 0

/-- `oram_utils::DataCompress`: compress into a `LZ4_compressBound`
sized buffer; abort (`none`) if the library reports 0. -/
def DataCompress (lib : CompressionLib) (data : List Nat) :
    Option (List Nat) :=
  let compressed := lib.compressImpl data
  if compressed.length = 0 then none else some compressed

/-- `oram_utils::DataDecompress`: decompress with output capacity
`data_size * 2`; the `int` result is stored into a `size_t` (reduced
`% 2^64`) and the fatal branch fires only when that `size_t` is 0.
Returns `(decompressed_size, out bytes)`. -/
def DataDecompress (lib : CompressionLib) (data : List Nat) :
    Option (Nat × List Nat) :=
  let max_allowed_size := data.length * 2
  let r := lib.decompressImpl data max_allowed_size
  let decompressed_size := (r.1 % (2 ^ 64 : Int)).toNat
  if decompressed_size = 0 then none else some (decompressed_size, r.2)

/-- A concrete conforming `CompressionLib` instance used to evaluate the
compression round trip: it compresses the all-zero 40-byte payload
(`ORAM_BLOCK_SIZE` at `dsz = 7`) down to a single byte and stores any
other payload with a one-byte marker, mirroring how LZ4 shrinks highly
compressible input far below half its original size. -/
def lz4ToyDecode (c : List Nat) : List Nat :=
  if c = [0] then List.replicate 40 0 else c.drop 1

/-- Compression direction of the toy conforming instance. -/
def lz4ToyCompress (d : List Nat) : List Nat :=
  if d = List.replicate 40 0 then [0] else 1 :: d

/-- Decompression direction of the toy conforming instance: succeeds
with the original bytes iff the capacity suffices, else a negative
result, as `LZ4_decompress_safe` does. -/
def lz4ToyDecompress (c : List Nat) (cap : Nat) : Int × List Nat :=
  if (lz4ToyDecode c).length ≤ cap then
    (((lz4ToyDecode c).length : Int), lz4ToyDecode c)
  else (-1, [])

/-- The toy instance packaged with its conformance proofs. -/
def lz4Toy : CompressionLib where
  compressImpl := lz4ToyCompress
  decompressImpl := lz4ToyDecompress
  decompress_of_le := by
    intro d cap hle
    have hdc : lz4ToyDecode (lz4ToyCompress d) = d := by
      unfold lz4ToyCompress lz4ToyDecode
      by_cases h : d = List.replicate 40 0
      · rw [if_pos h, if_pos rfl, h]
      · rw [if_neg h, if_neg (by simp)]
        rfl
    unfold lz4ToyDecompress
    rw [hdc, if_pos hle]
  decompress_of_lt := by
    intro d cap hlt
    have hdc : lz4ToyDecode (lz4ToyCompress d) = d := by
      unfold lz4ToyCompress lz4ToyDecode
      by_cases h : d = List.replicate 40 0
      · rw [if_pos h, if_pos rfl, h]
      · rw [if_neg h, if_neg (by simp)]
        rfl
    unfold lz4ToyDecompress
    rw [hdc, if_neg (by omega)]
    decide

/-! ### Lemmas about the byte-level helpers -/

theorem length_natToBytesLE (w n : Nat) : (natToBytesLE w n).length = w := by
  simp [natToBytesLE]

theorem length_fixLen (n : Nat) (l : List Nat) : (fixLen n l).length = n := by
  simp [fixLen]

theorem map_mod_of_lt (l : List Nat) (h : ∀ x ∈ l, x < 256) :
    l.map (· % 256) = l := by
  induction l with
  | nil => rfl
  | cons a t ih =>
    simp only [List.map_cons, List.cons.injEq]
    exact ⟨Nat.mod_eq_of_lt (h a (by simp)), ih fun x hx => h x (by simp [hx])⟩

theorem fixLen_of_wf {n : Nat} {l : List Nat} (hlen : l.length = n)
    (hlt : ∀ x ∈ l, x < 256) : fixLen n l = l := by
  unfold fixLen
  rw [map_mod_of_lt l hlt, ← hlen, List.take_left]

theorem bytesToNatLE_natToBytesLE {n : Nat} (h : n < 2 ^ 32) :
    bytesToNatLE (natToBytesLE BLOCK_ID_SIZE n) = n := by
  have e : natToBytesLE BLOCK_ID_SIZE n
      = [n % 256, n / 256 % 256, n / 65536 % 256, n / 16777216 % 256] := by
    simp [natToBytesLE, BLOCK_ID_SIZE, List.range_succ]
  rw [e]
  simp only [bytesToNatLE, List.foldr_cons, List.foldr_nil]
  omega

theorem length_ConvertToString (dsz : Nat) (b : oram_block_t) :
    (ConvertToString dsz b).length = ORAM_BLOCK_SIZE dsz := by
  simp [ConvertToString, ORAM_BLOCK_SIZE, BLOCK_ID_SIZE, length_natToBytesLE,
    length_fixLen, natToBytesLE]
  omega

theorem blockOfBytes_ConvertToString {dsz : Nat} {b : oram_block_t}
    (h : WFBlock dsz b) : blockOfBytes (ConvertToString dsz b) = b := by
  obtain ⟨bid, bty, biv, bmac, bdata⟩ := b
  obtain ⟨h1, h2, h3, h4, h5, h6, h7, h8⟩ := h
  simp only [] at h1 h2 h3 h4 h5 h6 h7 h8
  have hidlen : (natToBytesLE BLOCK_ID_SIZE bid).length = BLOCK_ID_SIZE :=
    length_natToBytesLE _ _
  unfold ConvertToString blockOfBytes
  simp only []
  rw [fixLen_of_wf h3 h4, fixLen_of_wf h5 h6, fixLen_of_wf h7 h8,
    Nat.mod_eq_of_lt h2]
  set idB := natToBytesLE BLOCK_ID_SIZE bid with hidB
  have a1 : idB ++ [bty] ++ biv ++ bmac ++ bdata
      = idB ++ ([bty] ++ biv ++ bmac ++ bdata) := by
    simp [List.append_assoc]
  have a2 : idB ++ [bty] ++ biv ++ bmac ++ bdata
      = (idB ++ [bty]) ++ (biv ++ (bmac ++ bdata)) := by
    simp [List.append_assoc]
  have a3 : idB ++ [bty] ++ biv ++ bmac ++ bdata
      = ((idB ++ [bty]) ++ biv) ++ (bmac ++ bdata) := by
    simp [List.append_assoc]
  have l2 : (idB ++ [bty]).length = BLOCK_ID_SIZE + 1 := by
    simp [hidlen]
  have l3 : ((idB ++ [bty]) ++ biv).length = BLOCK_ID_SIZE + 1 + 12 := by
    simp [hidlen, h3]
  have l4 : (idB ++ [bty] ++ biv ++ bmac).length
      = BLOCK_ID_SIZE + 1 + 12 + 16 := by
    simp [hidlen, h3, h5]
  simp only [oram_block_t.mk.injEq]
  refine ⟨?_, ?_, ?_, ?_, ?_⟩
  · rw [a1, List.take_left' hidlen, hidB, bytesToNatLE_natToBytesLE h1]
  · rw [a1, List.getD_append_right _ _ _ _ (le_of_eq hidlen), hidlen,
      Nat.sub_self]
    rfl
  · rw [a2, List.drop_left' l2, List.take_left' h3]
  · rw [a3, List.drop_left' l3, List.take_left' h5]
  · rw [List.drop_left' l4]

/-! ### Claim theorems: serialization and storage -/

/-- C8: every block, `Normal` or `Dummy`, serializes under
`ConvertToString` to exactly `ORAM_BLOCK_SIZE` bytes, and hence every
string produced by `SerializeToStringVector` has that length. -/
theorem C8_serialized_fixed_size (dsz : Nat) (b : oram_block_t)
    (bucket : List oram_block_t) :
    (ConvertToString dsz b).length = ORAM_BLOCK_SIZE dsz ∧
    ((SerializeToStringVector dsz bucket).all
      fun s => s.length == ORAM_BLOCK_SIZE dsz) = true := by
  refine ⟨length_ConvertToString dsz b, ?_⟩
  simp only [SerializeToStringVector, List.all_eq_true, List.mem_map]
  rintro s ⟨x, _, rfl⟩
  simp [length_ConvertToString]

/-- C9: the flat-storage range check `SqrtOramServerStorage::InRange(pos)`
returns true exactly when `pos < block_size_`. -/
theorem C9_InRange_iff (st : SqrtOramServerStorage) (pos : Nat) :
    st.InRange pos = true ↔ pos < st.block_size_ := by
  simp [SqrtOramServerStorage.InRange]

/-- C7: `DeserializeFromStringVector` hits the fatal precondition branch
(`none`) if and only if some input string's length differs from
`ORAM_BLOCK_SIZE`; when every length is exact, a bucket is returned. -/
theorem C7_deserialize_fatal_iff (dsz : Nat) (data : List (List Nat)) :
    DeserializeFromStringVector dsz data = none
      ↔ (data.any fun s => !(s.length == ORAM_BLOCK_SIZE dsz)) = true := by
  induction data with
  | nil => simp [DeserializeFromStringVector]
  | cons s rest ih =>
    by_cases h : s.length = ORAM_BLOCK_SIZE dsz
    · cases hre : DeserializeFromStringVector dsz rest with
      | none =>
        rw [hre] at ih
        simp [DeserializeFromStringVector, ConvertToBlock, h, hre, ← ih]
      | some bs =>
        rw [hre] at ih
        have hX : (rest.any fun t => !(t.length == ORAM_BLOCK_SIZE dsz))
            = false := by
          cases hA : rest.any fun t => !(t.length == ORAM_BLOCK_SIZE dsz) with
          | false => rfl
          | true => exact absurd (ih.mpr hA) (by simp)
        simp [DeserializeFromStringVector, ConvertToBlock, h, hre, hX]
    · simp [DeserializeFromStringVector, ConvertToBlock, h]

/-- C4: serialization round trip: deserializing the serialized form of
any bucket of well-formed blocks returns the bucket, block for block, in
order. -/
theorem C4_serialize_roundtrip (dsz : Nat) (bucket : List oram_block_t)
    (h : ∀ b ∈ bucket, WFBlock dsz b) :
    DeserializeFromStringVector dsz (SerializeToStringVector dsz bucket)
      = some bucket := by
  induction bucket with
  | nil => rfl
  | cons b rest ih =>
    have hb : WFBlock dsz b := h b (by simp)
    have hr := ih fun x hx => h x (by simp [hx])
    show DeserializeFromStringVector dsz
      (ConvertToString dsz b :: SerializeToStringVector dsz rest) = _
    simp [DeserializeFromStringVector, ConvertToBlock, length_ConvertToString,
      blockOfBytes_ConvertToString hb, hr]

/-- Witness for C4 at a concrete singleton bucket. -/
theorem C4_serialize_roundtrip_witness :
    DeserializeFromStringVector 1 (SerializeToStringVector 1
        [⟨5, kNormal, List.replicate 12 7, List.replicate 16 9, [3]⟩])
      = some [⟨5, kNormal, List.replicate 12 7, List.replicate 16 9, [3]⟩] :=
  C4_serialize_roundtrip 1 _ (by decide)

/-! ### Claim theorems: block codec -/

/-- C1: for a `Normal` block and a conforming AEAD provider (output is
`ciphertext ++ 16-byte tag` over the payload and `Decrypt` inverts
`Encrypt`), encrypting and then decrypting restores the original payload
in the `data` field (iv and mac_tag are regenerated on the way); for a
block whose type is not `Normal`, both `EncryptBlock` and `DecryptBlock`
are the identity. -/
theorem C1_codec_roundtrip (dsz : Nat) (c : Cryptor) (pos : Nat)
    (b : oram_block_t) (hdata : b.data.length = dsz)
    (henc : ∀ d iv, (c.encrypt d iv).length = d.length + 16)
    (hinv : ∀ d iv, c.decrypt (c.encrypt d iv) iv = d) :
    (b.type = kNormal →
      (DecryptBlock c (EncryptBlock c pos b).1).data = b.data) ∧
    (b.type ≠ kNormal →
      EncryptBlock c pos b = (b, pos) ∧ DecryptBlock c b = b) := by
  constructor
  · intro hty
    obtain ⟨bid, bty, biv, bmac, bdata⟩ := b
    simp only [] at hty hdata
    subst hty
    unfold EncryptBlock DecryptBlock
    rw [if_neg (by simp)]
    simp only []
    rw [if_neg (by simp)]
    simp only []
    set iv0 := RandomBytes c.rng pos 12 with hiv0
    have hlen : (c.encrypt bdata iv0).length = dsz + 16 := by
      rw [henc, hdata]
    set enc := c.encrypt bdata iv0 with henc0
    have e1 : enc.length - 16 = dsz := by omega
    have ht : (enc.take dsz).length = dsz := by
      rw [List.length_take]; omega
    have hdropb : bdata.drop dsz = [] := List.drop_eq_nil_of_le (by omega)
    have hm1 : memcpyList bdata (enc.take (enc.length - 16))
        = enc.take dsz := by
      unfold memcpyList
      rw [e1, ht, hdropb, List.append_nil]
    have hdec : c.decrypt enc iv0 = bdata := by rw [henc0, hinv]
    rw [hm1, e1, List.take_append_drop, hdec]
    unfold memcpyList
    rw [hdata]
    have ht2 : (enc.take dsz).drop dsz = [] :=
      List.drop_eq_nil_of_le (by omega)
    rw [ht2, List.append_nil]
  · intro hty
    unfold EncryptBlock DecryptBlock
    rw [if_pos hty, if_pos hty]
    exact ⟨rfl, rfl⟩

/-- Witness for C1: a concrete conforming provider (zero tag appended on
encryption, tag stripped on decryption), one `Normal` block round-tripped
and one `Dummy` block left untouched. -/
theorem C1_codec_roundtrip_witness :
    (DecryptBlock ⟨fun _ => 0, fun d _ => d ++ List.replicate 16 0,
        fun e _ => e.take (e.length - 16)⟩
      (EncryptBlock ⟨fun _ => 0, fun d _ => d ++ List.replicate 16 0,
        fun e _ => e.take (e.length - 16)⟩ 0
        ⟨9, kNormal, List.replicate 12 1, List.replicate 16 2, [3, 4]⟩).1).data
      = [3, 4] ∧
    EncryptBlock ⟨fun _ => 0, fun d _ => d ++ List.replicate 16 0,
        fun e _ => e.take (e.length - 16)⟩ 7
        ⟨9, kDummy, List.replicate 12 1, List.replicate 16 2, [3, 4]⟩
      = (⟨9, kDummy, List.replicate 12 1, List.replicate 16 2, [3, 4]⟩, 7) := by
  constructor
  · exact (C1_codec_roundtrip 2
      ⟨fun _ => 0, fun d _ => d ++ List.replicate 16 0,
        fun e _ => e.take (e.length - 16)⟩ 0
      ⟨9, kNormal, List.replicate 12 1, List.replicate 16 2, [3, 4]⟩ rfl
      (by intro d iv; simp)
      (by intro d iv
          show (d ++ List.replicate 16 0).take
            ((d ++ List.replicate 16 0).length - 16) = d
          rw [List.length_append, List.length_replicate, Nat.add_sub_cancel,
            List.take_left])).1 rfl
  · exact ((C1_codec_roundtrip 2
      ⟨fun _ => 0, fun d _ => d ++ List.replicate 16 0,
        fun e _ => e.take (e.length - 16)⟩ 7
      ⟨9, kDummy, List.replicate 12 1, List.replicate 16 2, [3, 4]⟩ rfl
      (by intro d iv; simp)
      (by intro d iv
          show (d ++ List.replicate 16 0).take
            ((d ++ List.replicate 16 0).length - 16) = d
          rw [List.length_append, List.length_replicate, Nat.add_sub_cancel,
            List.take_left])).2 (by decide)).1

/-- C10: on a `Normal` block, `EncryptBlock` touches only `iv`,
`mac_tag` and `data` (it preserves `block_id` and `type`), and
`DecryptBlock` touches only `data` (it preserves `block_id`, `type`,
`iv` and `mac_tag`). -/
theorem C10_codec_frame (c : Cryptor) (pos : Nat) (b : oram_block_t)
    (hty : b.type = kNormal) :
    (EncryptBlock c pos b).1.block_id = b.block_id ∧
    (EncryptBlock c pos b).1.type = b.type ∧
    (DecryptBlock c b).block_id = b.block_id ∧
    (DecryptBlock c b).type = b.type ∧
    (DecryptBlock c b).iv = b.iv ∧
    (DecryptBlock c b).mac_tag = b.mac_tag := by
  unfold EncryptBlock DecryptBlock
  rw [if_neg (by simp [hty]), if_neg (by simp [hty])]
  exact ⟨rfl, rfl, rfl, rfl, rfl, rfl⟩

/-- Witness for C10 on a concrete `Normal` block. -/
theorem C10_codec_frame_witness :
    (EncryptBlock ⟨fun _ => 3, fun d _ => d, fun e _ => e⟩ 0
      ⟨11, kNormal, List.replicate 12 1, List.replicate 16 2, [5]⟩).1.block_id
      = 11 ∧
    (EncryptBlock ⟨fun _ => 3, fun d _ => d, fun e _ => e⟩ 0
      ⟨11, kNormal, List.replicate 12 1, List.replicate 16 2, [5]⟩).1.type
      = kNormal ∧
    (DecryptBlock ⟨fun _ => 3, fun d _ => d, fun e _ => e⟩
      ⟨11, kNormal, List.replicate 12 1, List.replicate 16 2, [5]⟩).block_id
      = 11 ∧
    (DecryptBlock ⟨fun _ => 3, fun d _ => d, fun e _ => e⟩
      ⟨11, kNormal, List.replicate 12 1, List.replicate 16 2, [5]⟩).type
      = kNormal ∧
    (DecryptBlock ⟨fun _ => 3, fun d _ => d, fun e _ => e⟩
      ⟨11, kNormal, List.replicate 12 1, List.replicate 16 2, [5]⟩).iv
      = List.replicate 12 1 ∧
    (DecryptBlock ⟨fun _ => 3, fun d _ => d, fun e _ => e⟩
      ⟨11, kNormal, List.replicate 12 1, List.replicate 16 2, [5]⟩).mac_tag
      = List.replicate 16 2 :=
  C10_codec_frame ⟨fun _ => 3, fun d _ => d, fun e _ => e⟩ 0
    ⟨11, kNormal, List.replicate 12 1, List.replicate 16 2, [5]⟩ rfl

/-! ### Claim theorems: bucket sampling and stash padding -/

theorem length_filter_range_lt (s t : Nat) :
    ((List.range t).filter fun i => decide (i < s)).length = min s t := by
  induction t with
  | zero => simp
  | succ n ih =>
    rw [List.range_succ, List.filter_append]
    simp only [List.length_append, ih]
    by_cases h : n < s
    · simp [h]; omega
    · simp [h]; omega

/-- C2 (amended): for any permutation-respecting shuffle,
`SampleRandomBucket size tree_size offset` returns exactly `tree_size`
blocks, of which exactly `min (size / 2) tree_size` are `Normal` (the
code caps the `Normal` count at `tree_size`, so it is `size / 2` only
when `size / 2 ≤ tree_size`); provided `offset + size / 2 ≤ 2^32` (so
the ids do not wrap in the 4-byte `block_id` field), every `Normal`
block's `block_id` lies in `[offset, offset + size / 2)` and no two
`Normal` blocks share a `block_id`. -/
theorem C2_sample_bucket_invariants (dsz : Nat) (rng : Nat → Nat)
    (pos : Nat) (junkIv junkMac : Nat → List Nat)
    (shuffle : List oram_block_t → List oram_block_t)
    (size tree_size initial_offset : Nat)
    (hshuffle : ∀ l, (shuffle l).Perm l) :
    (SampleRandomBucket dsz rng pos junkIv junkMac shuffle size tree_size
        initial_offset).length = tree_size ∧
    ((SampleRandomBucket dsz rng pos junkIv junkMac shuffle size tree_size
        initial_offset).filter fun b => b.type == kNormal).length
      = min (size / 2) tree_size ∧
    (initial_offset + size / 2 ≤ 2 ^ 32 →
      (∀ b ∈ SampleRandomBucket dsz rng pos junkIv junkMac shuffle size
          tree_size initial_offset, b.type = kNormal →
        initial_offset ≤ b.block_id ∧
          b.block_id < initial_offset + size / 2) ∧
      (((SampleRandomBucket dsz rng pos junkIv junkMac shuffle size
          tree_size initial_offset).filter fun b => b.type == kNormal).map
        fun b => b.block_id).Nodup) := by
  set f : Nat → oram_block_t := fun i =>
    { block_id := (i + initial_offset) % 2 ^ 32
      type := if i < size >>> 1 then kNormal else kDummy
      iv := junkIv i
      mac_tag := junkMac i
      data := (i + initial_offset) % 256 ::
        RandomBytes rng (pos + i * (dsz - 1)) (dsz - 1) } with hf
  have hexp : SampleRandomBucket dsz rng pos junkIv junkMac shuffle size
      tree_size initial_offset = shuffle ((List.range tree_size).map f) :=
    rfl
  have hp : (shuffle ((List.range tree_size).map f)).Perm
      ((List.range tree_size).map f) := hshuffle _
  have hcomp : ∀ i, ((fun b => b.type == kNormal) ∘ f) i
      = decide (i < size >>> 1) := by
    intro i
    by_cases h : i < size >>> 1 <;> simp [hf, h, kNormal, kDummy]
  have hfilter : ((List.range tree_size).map f).filter
        (fun b => b.type == kNormal)
      = ((List.range tree_size).filter fun i => decide (i < size >>> 1)).map
        f := by
    rw [List.filter_map]
    congr 1
    exact List.filter_congr fun i _ => hcomp i
  have h32 : (2 : Nat) ^ 32 = 4294967296 := by norm_num
  refine ⟨?_, ?_, ?_⟩
  · rw [hexp, hp.length_eq, List.length_map, List.length_range]
  · rw [hexp, (hp.filter _).length_eq, hfilter, List.length_map,
      length_filter_range_lt, Nat.shiftRight_one]
  · intro hwrap
    rw [h32] at hwrap
    constructor
    · intro b hb hty
      rw [hexp] at hb
      have hb2 := hp.mem_iff.mp hb
      obtain ⟨i, hi, rfl⟩ := List.mem_map.mp hb2
      rw [List.mem_range] at hi
      have hlt : i < size >>> 1 := by
        by_contra hcon
        rw [hf] at hty
        simp only [if_neg hcon] at hty
        exact absurd hty (by simp [kNormal, kDummy])
      rw [Nat.shiftRight_one] at hlt
      have hnw : (i + initial_offset) % 2 ^ 32 = i + initial_offset :=
        Nat.mod_eq_of_lt (by rw [h32]; omega)
      simp only [hf]
      rw [hnw]
      omega
    · rw [hexp]
      have hperm2 := (hp.filter (fun b => b.type == kNormal)).map
        fun b => b.block_id
      rw [hperm2.nodup_iff, hfilter]
      have hmapmap : (((List.range tree_size).filter
            fun i => decide (i < size >>> 1)).map f).map
              (fun b => b.block_id)
          = ((List.range tree_size).filter
            fun i => decide (i < size >>> 1)).map fun i =>
              (i + initial_offset) % 2 ^ 32 := by
        rw [List.map_map]; rfl
      rw [hmapmap]
      apply List.Nodup.map_on
      · intro a ha b hb hab
        have ha2 : a < size / 2 := by
          have h := (List.mem_filter.mp ha).2
          rw [← Nat.shiftRight_one]
          simpa using h
        have hb2 : b < size / 2 := by
          have h := (List.mem_filter.mp hb).2
          rw [← Nat.shiftRight_one]
          simpa using h
        rw [Nat.mod_eq_of_lt (by rw [h32]; omega),
          Nat.mod_eq_of_lt (by rw [h32]; omega)] at hab
        omega
      · exact (List.nodup_range tree_size).filter _

/-- Counterexample for C2 as stated: with `size = 6` and
`tree_size = 1` (identity shuffle, a legal outcome of the random
shuffle), the bucket holds 1 `Normal` block, not `size / 2 = 3`. -/
theorem C2_sample_bucket_counterexample :
    ((SampleRandomBucket 1 (fun _ => 0) 0 (fun _ => []) (fun _ => []) id
        6 1 0).filter fun b => b.type == kNormal).length ≠ 6 / 2 := by
  decide

/-- Witness for C2 at the spec's own end-to-end scenario
`SampleRandomBucket(4, 4, 100)`, exercising the no-wrap proviso too. -/
theorem C2_sample_bucket_invariants_witness :
    (SampleRandomBucket 1 (fun _ => 0) 0 (fun _ => []) (fun _ => []) id
        4 4 100).length = 4 ∧
    ((SampleRandomBucket 1 (fun _ => 0) 0 (fun _ => []) (fun _ => []) id
        4 4 100).filter fun b => b.type == kNormal).length = min (4 / 2) 4 ∧
    (((SampleRandomBucket 1 (fun _ => 0) 0 (fun _ => []) (fun _ => []) id
        4 4 100).filter fun b => b.type == kNormal).map
      fun b => b.block_id).Nodup :=
  ⟨(C2_sample_bucket_invariants 1 (fun _ => 0) 0 (fun _ => []) (fun _ => [])
      id 4 4 100 fun l => List.Perm.refl l).1,
   (C2_sample_bucket_invariants 1 (fun _ => 0) 0 (fun _ => []) (fun _ => [])
      id 4 4 100 fun l => List.Perm.refl l).2.1,
   ((C2_sample_bucket_invariants 1 (fun _ => 0) 0 (fun _ => []) (fun _ => [])
      id 4 4 100 fun l => List.Perm.refl l).2.2 (by decide)).2⟩

/-- C6 (amended): in the bucket built by `SampleRandomBucket`, every
`Dummy` block is the `i`-th loop block for some `i`: its `block_id` is
the sum `i + initial_offset` narrowed into the 4-byte field
(`% 2^32`), its payload starts with the deterministic byte
`(i + initial_offset) % 256` (written by
`block.data[0] = i + initial_offset` before the type branch), and only
the remaining `DEFAULT_ORAM_DATA_SIZE - 1` bytes are drawn from the
provider's random source. -/
theorem C6_dummy_payload (dsz : Nat) (rng : Nat → Nat) (pos : Nat)
    (junkIv junkMac : Nat → List Nat)
    (shuffle : List oram_block_t → List oram_block_t)
    (size tree_size initial_offset : Nat)
    (hshuffle : ∀ l, (shuffle l).Perm l) :
    ∀ b ∈ SampleRandomBucket dsz rng pos junkIv junkMac shuffle size
        tree_size initial_offset, b.type = kDummy →
      ∃ i, i < tree_size ∧ b.block_id = (i + initial_offset) % 2 ^ 32 ∧
        b.data = (i + initial_offset) % 256 ::
          RandomBytes rng (pos + i * (dsz - 1)) (dsz - 1) := by
  intro b hb _
  have hb2 := (hshuffle _).mem_iff.mp hb
  obtain ⟨i, hi, rfl⟩ := List.mem_map.mp hb2
  rw [List.mem_range] at hi
  exact ⟨i, hi, rfl, rfl⟩

/-- Counterexample for C6 as stated: with a provider whose random source
only ever outputs the byte 5, the single `Dummy` block built by
`SampleRandomBucket 0 1 3` has payload `[3]` (its `block_id mod 256`),
which no draw from that random source can produce — the first payload
byte is not drawn from the provider. -/
theorem C6_dummy_payload_counterexample :
    ¬ ∃ q n, ((SampleRandomBucket 1 (fun _ => 5) 0 (fun _ => [])
        (fun _ => []) id 0 1 3).headD default).data
      = RandomBytes (fun _ => 5) q n := by
  rintro ⟨q, n, h⟩
  have hd : ((SampleRandomBucket 1 (fun _ => 5) 0 (fun _ => [])
      (fun _ => []) id 0 1 3).headD default).data = [3] := by decide
  rw [hd] at h
  have hlen := congrArg List.length h
  simp [RandomBytes] at hlen
  subst hlen
  simp [RandomBytes] at h

/-- Witness for C6 on the concrete all-dummy bucket
`SampleRandomBucket 0 1 3`. -/
theorem C6_dummy_payload_witness :
    ∃ i, i < 1 ∧
      ((SampleRandomBucket 1 (fun _ => 5) 0 (fun _ => []) (fun _ => []) id
        0 1 3).headD default).block_id = (i + 3) % 2 ^ 32 ∧
      ((SampleRandomBucket 1 (fun _ => 5) 0 (fun _ => []) (fun _ => []) id
        0 1 3).headD default).data = (i + 3) % 256 ::
          RandomBytes (fun _ => 5) (0 + i * (1 - 1)) (1 - 1) :=
  C6_dummy_payload 1 (fun _ => 5) 0 (fun _ => []) (fun _ => []) id 0 1 3
    (fun l => List.Perm.refl l) _ (by decide) (by decide)

/-- C3 (amended): `PadStash` never truncates: when the stash already
holds at least `bucket_size` blocks it is unchanged; otherwise the
result has exactly `bucket_size` blocks, the original blocks are
preserved unchanged in their original order at the front, and each
appended block is the reinterpretation of `ORAM_BLOCK_SIZE` fresh
provider-random bytes as a block — its whole header, including the type
field, is random, so the appended blocks are not necessarily typed
`Dummy`. -/
theorem C3_pad_stash (dsz : Nat) (rng : Nat → Nat) (pos : Nat)
    (stash : List oram_block_t) (bucket_size : Nat) :
    (bucket_size ≤ stash.length →
      PadStash dsz rng pos stash bucket_size = stash) ∧
    (stash.length < bucket_size →
      (PadStash dsz rng pos stash bucket_size).length = bucket_size ∧
      (PadStash dsz rng pos stash bucket_size).take stash.length = stash ∧
      ∀ j < bucket_size - stash.length,
        (PadStash dsz rng pos stash bucket_size).getD
            (stash.length + j) default
          = blockOfBytes (RandomBytes rng (pos + j * ORAM_BLOCK_SIZE dsz)
              (ORAM_BLOCK_SIZE dsz))) := by
  constructor
  · intro h
    unfold PadStash
    rw [if_neg (by omega)]
  · intro h
    unfold PadStash
    rw [if_pos h]
    refine ⟨by simp; omega, List.take_left .., ?_⟩
    intro j hj
    rw [List.getD_append_right _ _ _ _ (by omega)]
    have e : stash.length + j - stash.length = j := by omega
    rw [e, List.getD_eq_getElem _ _ (by simp; omega)]
    simp

/-- Counterexample for C3 as stated: `PadStash` randomizes the entire
appended block, type field included; with the all-zero random source
the appended block's type byte is `0 = kNormal`, not `kDummy`. -/
theorem C3_pad_stash_counterexample :
    ((PadStash 1 (fun _ => 0) 0 [] 1).map fun b => b.type) = [kNormal] ∧
    kNormal ≠ kDummy := by
  decide

/-- Witness for C3: an over-full stash is untouched and an empty stash
is padded to the bucket size. -/
theorem C3_pad_stash_witness :
    PadStash 1 (fun _ => 0) 0
        [⟨5, kDummy, List.replicate 12 0, List.replicate 16 0, [7]⟩] 1
      = [⟨5, kDummy, List.replicate 12 0, List.replicate 16 0, [7]⟩] ∧
    (PadStash 1 (fun _ => 0) 0 [] 2).length = 2 :=
  ⟨(C3_pad_stash 1 (fun _ => 0) 0 [⟨5, kDummy, List.replicate 12 0,
      List.replicate 16 0, [7]⟩] 1).1 (by decide),
   ((C3_pad_stash 1 (fun _ => 0) 0 [] 2).2 (by decide)).1⟩

/-! ### Claim theorems: compression -/

/-- C5: the compression round trip is broken in the code.  With a
conforming compression instance that (like LZ4 on highly compressible
data) shrinks the all-zero 40-byte payload (`ORAM_BLOCK_SIZE` at
`dsz = 7`) to a single byte, `DataDecompress` offers only
`2 * compressed_size = 2` bytes of output capacity, so decompression
fails with a negative result; the `decompressed_size == 0` fatal check
does not fire on the negative value stored into a `size_t`, and the call
returns a garbage size of `2^64 - 1` with an empty output instead of the
original payload. -/
theorem C5_compression_roundtrip_fails :
    DataCompress lz4Toy (List.replicate 40 0) = some [0] ∧
    DataDecompress lz4Toy [0] = some (2 ^ 64 - 1, []) ∧
    (2 ^ 64 - 1 : Nat) ≠ (List.replicate 40 (0 : Nat)).length ∧
    ([] : List Nat) ≠ List.replicate 40 0 := by
  refine ⟨by decide, by decide, by decide, by decide⟩

end PartitionORAM
